import Mathlib

/-!
Verification of the text_renderer rendering/augmentation pipeline
(`textrenderer/renderer.py`) against its design specification.

Embedding conventions for the Python / NumPy / OpenCV source:

* Python integers are `ℤ`/`ℕ`; Python float arithmetic is modelled exactly
  over `ℚ` (the claims under study concern ranges, rounding modes and
  branch structure, not float rounding error);
* `np.around` and OpenCV's `cvRound` round half to even (`roundHE`);
* Python `int(...)` truncates toward zero (`pyInt`);
* `math.ceil` is `Int.ceil`, `math.floor` is `Int.floor`;
* NumPy basic slicing `a[i:j]` adds the axis length to negative indices and
  then clips to the axis bounds (`clampIdx`, `sliceLen`);
* a raised Python exception (a failed `assert`, a `ZeroDivisionError`, or a
  `cv2.error` such as `cv2.resize` applied to an empty array) is
  `Option.none`;
* every random draw a function makes is an explicit argument, and the set
  of values the sampler can produce is stated separately (`Finset.Icc` for
  `random.randint`, validity predicates for the offset draws).
-/

namespace TextRenderer

/-- Round half to even, the rounding used by `np.around` and by OpenCV's
`cvRound` (which turns `fx`/`fy` scale factors into integer output sizes in
`cv2.resize`). -/
def roundHE (q : ℚ) : ℤ :=
  if q - ⌊q⌋ < 1/2 then ⌊q⌋
  else if 1/2 < q - ⌊q⌋ then ⌊q⌋ + 1
  else if ⌊q⌋ % 2 = 0 then ⌊q⌋ else ⌊q⌋ + 1

/-- Python `int(...)` applied to a float: truncation toward zero. -/
def pyInt (q : ℚ) : ℤ := if 0 ≤ q then ⌊q⌋ else -⌊-q⌋

/-- NumPy basic-slice index normalization on an axis of length `n`:
a negative index counts from the end, then the index clips to `[0, n]`. -/
def clampIdx (n : ℕ) (i : ℤ) : ℤ :=
  if i < 0 then max 0 ((n : ℤ) + i) else min i (n : ℤ)

/-- Length of the NumPy basic slice `a[i:j]` on an axis of length `n`. -/
def sliceLen (n : ℕ) (a b : ℤ) : ℕ := (clampIdx n b - clampIdx n a).toNat

/-- `Renderer.random_xy_offset`: the largest offset the sampler can return
when placing a source extent `src` inside a destination extent `dst`; the
offset is `random.randint(0, max_offset)` when the slack is positive and
`0` otherwise, so the possible draws are exactly `[0, maxOffset src dst]`. -/
def maxOffset (src : ℤ) (dst : ℕ) : ℕ :=
  if src < (dst : ℤ) then ((dst : ℤ) - src).toNat else 0

theorem floor_le_roundHE (q : ℚ) : ⌊q⌋ ≤ roundHE q := by
  unfold roundHE
  split_ifs <;> omega

theorem roundHE_ge {n : ℤ} {q : ℚ} (h : (n : ℚ) ≤ q) : n ≤ roundHE q :=
  le_trans (Int.le_floor.mpr h) (floor_le_roundHE q)

theorem sliceLen_of_bounds {n : ℕ} {a b : ℤ} (ha : 0 ≤ a) (hb : b ≤ (n : ℤ))
    (hab : a ≤ b) : sliceLen n a b = (b - a).toNat := by
  unfold sliceLen clampIdx
  split_ifs <;> omega

theorem sliceLen_self (n : ℕ) (a : ℤ) : sliceLen n a a = 0 := by
  unfold sliceLen clampIdx
  split_ifs <;> omega

/-- Inputs of one `Renderer.crop_img` call: the configured output size
(`self.out_width`, `self.out_height`), the warped raster's dimensions
(`img.shape = (imgH, imgW)`), the `cv2.boundingRect` of the warped text
quadrilateral (`bbox`), and the three random draws the call makes:
`dstHeight = random.randint(out_height // 4 * 3, out_height)` and the
`random_xy_offset` pair. -/
structure CropInput where
  outW : ℕ
  outH : ℕ
  imgH : ℕ
  imgW : ℕ
  bboxX : ℤ
  bboxY : ℤ
  bboxW : ℤ
  bboxH : ℤ
  dstHeight : ℕ
  xOff : ℕ
  yOff : ℕ

/-- Line 128: `scale = max(bbox_height / dst_height, bbox_width / self.out_width)`. -/
def cropScale (c : CropInput) : ℚ :=
  max ((c.bboxH : ℚ) / c.dstHeight) ((c.bboxW : ℚ) / c.outW)

/-- Line 130: `s_bbox_width = math.ceil(bbox_width / scale)`. -/
def sBboxW (c : CropInput) : ℤ := ⌈(c.bboxW : ℚ) / cropScale c⌉

/-- Line 131: `s_bbox_height = math.ceil(bbox_height / scale)`. -/
def sBboxH (c : CropInput) : ℤ := ⌈(c.bboxH : ℚ) / cropScale c⌉

/-- Line 133: `np.around(bbox[0] / scale)`. -/
def sBboxX (c : CropInput) : ℤ := roundHE ((c.bboxX : ℚ) / cropScale c)

/-- Line 134: `np.around(bbox[1] / scale)`. -/
def sBboxY (c : CropInput) : ℤ := roundHE ((c.bboxY : ℚ) / cropScale c)

/-- Line 144: `int_around((s_bbox[0] - x_offset) * scale)`. -/
def dstBboxX (c : CropInput) : ℤ := roundHE (((sBboxX c : ℚ) - c.xOff) * cropScale c)

/-- Line 145: `int_around((s_bbox[1] - y_offset) * scale)`. -/
def dstBboxY (c : CropInput) : ℤ := roundHE (((sBboxY c : ℚ) - c.yOff) * cropScale c)

/-- Line 146: `int_around(self.out_width * scale)`. -/
def dstBboxW (c : CropInput) : ℤ := roundHE ((c.outW : ℚ) * cropScale c)

/-- Line 147: `int_around(self.out_height * scale)`. -/
def dstBboxH (c : CropInput) : ℤ := roundHE ((c.outH : ℚ) * cropScale c)

/-- The three random draws of a `crop_img` call lie in the ranges their
samplers can produce: `dst_height` in
`[out_height // 4 * 3, out_height]` (`random.randint` is inclusive) and
the offsets in the `random_xy_offset` ranges, whose source extents are
`s_bbox_width` and `s_bbox_height` (line 138). -/
def validCropDraws (c : CropInput) : Prop :=
  c.outH / 4 * 3 ≤ c.dstHeight ∧ c.dstHeight ≤ c.outH ∧
  c.xOff ≤ maxOffset (sBboxW c) c.outW ∧ c.yOff ≤ maxOffset (sBboxH c) c.outH

/-- `Renderer.crop_img` (lines 109-155) at the dimension level. The result
is the final raster size `(out_width, out_height)` exactly as
`cv2.resize(dst, (self.out_width, self.out_height), ...)` produces it,
together with `dst_bbox`. `none` models a raised exception: a
`ZeroDivisionError` when `dst_height`, `out_width` or `scale` is zero
(lines 128, 130), or the `cv2.error` that `cv2.resize` raises when the
crop slice `img[dst_bbox[1]:dst_bbox[1]+dst_bbox[3],
dst_bbox[0]:dst_bbox[0]+dst_bbox[2]]` is empty. -/
def cropImg (c : CropInput) : Option ((ℕ × ℕ) × (ℤ × ℤ × ℤ × ℤ)) :=
  if c.dstHeight = 0 ∨ c.outW = 0 then none else
  if cropScale c = 0 then none else
  if sliceLen c.imgH (dstBboxY c) (dstBboxY c + dstBboxH c) = 0 ∨
     sliceLen c.imgW (dstBboxX c) (dstBboxX c + dstBboxW c) = 0 then none else
  some ((c.outW, c.outH), (dstBboxX c, dstBboxY c, dstBboxW c, dstBboxH c))

theorem cropScale_nonneg (c : CropInput) (hbw : 0 ≤ c.bboxW) :
    0 ≤ cropScale c := by
  refine le_trans ?_ (le_max_right _ _)
  positivity

theorem cropScale_pos (c : CropInput) (hbw : 1 ≤ c.bboxW) (hW : 0 < c.outW) :
    0 < cropScale c := by
  refine lt_of_lt_of_le ?_ (le_max_right _ _)
  have h1 : (0 : ℚ) < (c.bboxW : ℚ) := by exact_mod_cast hbw
  have h2 : (0 : ℚ) < (c.outW : ℚ) := by exact_mod_cast hW
  positivity

theorem outW_le_dstBboxW (c : CropInput) (hbw : 1 ≤ c.bboxW) (hW : 0 < c.outW) :
    1 ≤ dstBboxW c := by
  have h2 : (0 : ℚ) < (c.outW : ℚ) := by exact_mod_cast hW
  refine roundHE_ge (le_trans ?_
    (mul_le_mul_of_nonneg_left (le_max_right _ _) (le_of_lt h2)))
  rw [mul_div_cancel₀ _ (ne_of_gt h2)]
  exact_mod_cast hbw

theorem outH_le_dstBboxH (c : CropInput) (hbh : 1 ≤ c.bboxH) (hH : 0 < c.outH)
    (hd0 : 0 < c.dstHeight) (hdH : c.dstHeight ≤ c.outH) :
    1 ≤ dstBboxH c := by
  have hH2 : (0 : ℚ) < (c.outH : ℚ) := by exact_mod_cast hH
  have hd2 : (0 : ℚ) < (c.dstHeight : ℚ) := by exact_mod_cast hd0
  refine roundHE_ge (le_trans ?_
    (mul_le_mul_of_nonneg_left (le_max_left _ _) (le_of_lt hH2)))
  have hbh0 : (0 : ℚ) ≤ (c.bboxH : ℚ) := by exact_mod_cast le_trans zero_le_one hbh
  have hq : (1 : ℚ) ≤ (c.outH : ℚ) / c.dstHeight := by
    rw [le_div_iff₀ hd2, one_mul]
    exact_mod_cast hdH
  calc (1 : ℚ) ≤ (c.bboxH : ℚ) := by exact_mod_cast hbh
    _ = (c.bboxH : ℚ) * 1 := by ring
    _ ≤ (c.bboxH : ℚ) * ((c.outH : ℚ) / c.dstHeight) := by
        exact mul_le_mul_of_nonneg_left hq hbh0
    _ = (c.outH : ℚ) * ((c.bboxH : ℚ) / c.dstHeight) := by ring

/-- C3: if the crop rectangle derived in `crop_img` has zero or negative
width or height, `crop_img` raises (the empty crop makes `cv2.resize`
throw `cv2.error`) instead of returning a mis-cropped raster. The
hypothesis `0 ≤ bboxW` records that `cv2.boundingRect` never produces a
negative extent. -/
theorem c3_degenerate_crop_fails (c : CropInput)
    (hbw : 0 ≤ c.bboxW)
    (h : dstBboxW c ≤ 0 ∨ dstBboxH c ≤ 0) : cropImg c = none := by
  have hs : 0 ≤ cropScale c := cropScale_nonneg c hbw
  unfold cropImg
  split_ifs with h1 h2 h3
  · rfl
  · rfl
  · rfl
  · exfalso
    apply h3
    rcases h with h | h
    · have hw0 : dstBboxW c = 0 := by
        have h0 : (0 : ℤ) ≤ dstBboxW c :=
          roundHE_ge (by push_cast; exact mul_nonneg (Nat.cast_nonneg _) hs)
        omega
      right
      rw [dstBboxW] at hw0
      rw [dstBboxW, hw0, add_zero]
      exact sliceLen_self _ _
    · have hh0 : dstBboxH c = 0 := by
        have h0 : (0 : ℤ) ≤ dstBboxH c :=
          roundHE_ge (by push_cast; exact mul_nonneg (Nat.cast_nonneg _) hs)
        omega
      left
      rw [dstBboxH] at hh0
      rw [dstBboxH, hh0, add_zero]
      exact sliceLen_self _ _

/-- Input reaching the degenerate case of C3: a warped text quadrilateral
whose bounding box is 1 pixel wide and 0 pixels tall (`bbox = (0,0,1,0)`),
output size 256×32, warped raster 256×2048, draws `dst_height = 24` and
zero offsets. The derived crop rectangle height is
`int_around(32 * max(0/24, 1/256)) = 0`. -/
def c3ex : CropInput := ⟨256, 32, 256, 2048, 0, 0, 1, 0, 24, 0, 0⟩

/-- C3 witness: at `c3ex`, the derived crop height is ≤ 0 and `crop_img`
signals failure. -/
theorem c3_witness :
    (0 ≤ c3ex.bboxW ∧ 0 ≤ c3ex.bboxH ∧ dstBboxH c3ex ≤ 0) ∧ cropImg c3ex = none := by
  have h : dstBboxH c3ex ≤ 0 := by
    norm_num [dstBboxH, cropScale, roundHE, c3ex, max_def]
  exact ⟨⟨by norm_num [c3ex], by norm_num [c3ex], h⟩,
    c3_degenerate_crop_fails c3ex (by norm_num [c3ex]) (Or.inr h)⟩

/-- C2 (amended): whenever `crop_img` returns, the returned raster has size
exactly `(out_width, out_height)` (first conjunct), and it does return —
with that exact size — whenever the derived crop rectangle lies inside the
warped raster (second conjunct). It does not return on every input: an
empty crop slice makes `cv2.resize` raise (see the counterexample). -/
theorem c2_crop_output_size (c : CropInput)
    (hW : 0 < c.outW) (hH : 0 < c.outH) (hd0 : 0 < c.dstHeight)
    (hdH : c.dstHeight ≤ c.outH) (hbw : 1 ≤ c.bboxW) (hbh : 1 ≤ c.bboxH) :
    (∀ r, cropImg c = some r → r.1 = (c.outW, c.outH)) ∧
    (0 ≤ dstBboxX c → dstBboxX c + dstBboxW c ≤ (c.imgW : ℤ) →
     0 ≤ dstBboxY c → dstBboxY c + dstBboxH c ≤ (c.imgH : ℤ) →
     cropImg c = some ((c.outW, c.outH),
       (dstBboxX c, dstBboxY c, dstBboxW c, dstBboxH c))) := by
  constructor
  · intro r hr
    unfold cropImg at hr
    split_ifs at hr
    rw [← Option.some_inj.mp hr]
  · intro hx1 hx2 hy1 hy2
    have hdw : 1 ≤ dstBboxW c := outW_le_dstBboxW c hbw hW
    have hdh : 1 ≤ dstBboxH c := outH_le_dstBboxH c hbh hH hd0 hdH
    have hsl1 : sliceLen c.imgH (dstBboxY c) (dstBboxY c + dstBboxH c) =
        (dstBboxH c).toNat := by
      rw [sliceLen_of_bounds hy1 hy2 (by omega)]
      simp
    have hsl2 : sliceLen c.imgW (dstBboxX c) (dstBboxX c + dstBboxW c) =
        (dstBboxW c).toNat := by
      rw [sliceLen_of_bounds hx1 hx2 (by omega)]
      simp
    have h3 : ¬ (sliceLen c.imgH (dstBboxY c) (dstBboxY c + dstBboxH c) = 0 ∨
        sliceLen c.imgW (dstBboxX c) (dstBboxX c + dstBboxW c) = 0) := by
      rw [hsl1, hsl2]
      omega
    unfold cropImg
    rw [if_neg (by omega), if_neg (ne_of_gt (cropScale_pos c hbw hW)), if_neg h3]

/-- Input refuting C2 as stated: the warped text box sticks 5 pixels past
the left edge of the warped raster (`bbox = (-5, 0, 24, 24)`), output size
256×32, raster 256×2048, draws `dst_height = 24` (so `scale = 1`) and zero
offsets — all draws in range. The crop x-origin is `-5`, NumPy wraps it to
column 2043, the slice `img[0:32, -5:251]` is empty, and `cv2.resize`
raises instead of returning a 256×32 raster. -/
def c2ex : CropInput := ⟨256, 32, 256, 2048, -5, 0, 24, 24, 24, 0, 0⟩

/-- C2 counterexample: a reachable input (draws in range, well-formed
bounding box partly outside the raster) on which `crop_img` raises rather
than returning an `(out_width, out_height)` raster. -/
theorem c2_counterexample :
    validCropDraws c2ex ∧ 1 ≤ c2ex.bboxW ∧ 1 ≤ c2ex.bboxH ∧
    cropImg c2ex = none := by
  refine ⟨?_, by norm_num [c2ex], by norm_num [c2ex], ?_⟩
  · norm_num [validCropDraws, c2ex, maxOffset, sBboxW, sBboxH, cropScale, max_def]
  · norm_num [cropImg, c2ex, cropScale, dstBboxX, dstBboxY, dstBboxW, dstBboxH,
      sBboxX, sBboxY, roundHE, sliceLen, clampIdx, max_def, min_def]

/-- Input exercising the success path of the amended C2: same geometry as
the counterexample but with the text box fully inside the raster. -/
def c2w : CropInput := ⟨256, 32, 300, 2048, 10, 10, 24, 24, 24, 0, 0⟩

/-- C2 witness: at `c2w` every hypothesis of the amended theorem holds and
`crop_img` returns a raster of exactly 256×32. -/
theorem c2_witness :
    (0 < c2w.outW ∧ 0 < c2w.outH ∧ 0 < c2w.dstHeight ∧
     c2w.dstHeight ≤ c2w.outH ∧ 1 ≤ c2w.bboxW ∧ 1 ≤ c2w.bboxH) ∧
    cropImg c2w = some ((256, 32), (10, 10, 256, 32)) := by
  refine ⟨by norm_num [c2w], ?_⟩
  have hx : dstBboxX c2w = 10 := by
    norm_num [dstBboxX, sBboxX, cropScale, c2w, roundHE, max_def]
  have hy : dstBboxY c2w = 10 := by
    norm_num [dstBboxY, sBboxY, cropScale, c2w, roundHE, max_def]
  have hw : dstBboxW c2w = 256 := by
    norm_num [dstBboxW, cropScale, c2w, roundHE, max_def]
  have hh : dstBboxH c2w = 32 := by
    norm_num [dstBboxH, cropScale, c2w, roundHE, max_def]
  have h := (c2_crop_output_size c2w (by norm_num [c2w]) (by norm_num [c2w])
    (by norm_num [c2w]) (by norm_num [c2w]) (by norm_num [c2w])
    (by norm_num [c2w])).2
    (by rw [hx]; norm_num) (by rw [hx, hw]; norm_num [c2w])
    (by rw [hy]; norm_num) (by rw [hy, hh]; norm_num [c2w])
  rw [h, hx, hy, hw, hh]
  norm_num [c2w]

/-- Inputs of one `Renderer.gen_bg_from_image` call: the requested size,
the dimensions of the stock background chosen by `random.choice(self.bgs)`
(`bg.shape = (bgH, bgW)`), and the `random_xy_offset` draw. -/
structure BgInput where
  width : ℕ
  height : ℕ
  bgH : ℕ
  bgW : ℕ
  xOff : ℕ
  yOff : ℕ

/-- Line 322: `scale = max(width / bg.shape[1], height / bg.shape[0])`. -/
def bgScale (i : BgInput) : ℚ :=
  max ((i.width : ℚ) / i.bgW) ((i.height : ℚ) / i.bgH)

/-- Column count of `cv2.resize(bg, None, fx=scale, fy=scale)`:
`cvRound(bg.shape[1] * scale)`. -/
def bgResizedW (i : BgInput) : ℤ := roundHE ((i.bgW : ℚ) * bgScale i)

/-- Row count of `cv2.resize(bg, None, fx=scale, fy=scale)`:
`cvRound(bg.shape[0] * scale)`. -/
def bgResizedH (i : BgInput) : ℤ := roundHE ((i.bgH : ℚ) * bgScale i)

/-- The offsets of a `gen_bg_from_image` call lie in the ranges
`random_xy_offset(height, width, out.shape[0], out.shape[1])` samples
from. -/
def validBgDraws (i : BgInput) : Prop :=
  i.xOff ≤ maxOffset (i.width : ℤ) (bgResizedW i).toNat ∧
  i.yOff ≤ maxOffset (i.height : ℤ) (bgResizedH i).toNat

/-- `Renderer.gen_bg_from_image` (lines 314-338) at the dimension level.
The Gaussian blur (line 330) and the contrast/brightness normalization
(lines 332-336) act pixelwise or with shape-preserving kernels and keep
the raster's shape; the normalization's one content-dependent failure is
its division by the cropped window's mean, so that statistic —
`bg_mean = int(np.mean(out))`, line 332 — is an explicit argument
`bgMean`. The result is the output shape as `(rows, cols)`; `none` models
a raised exception: the `assert width > height` (line 318), a
zero-dimension stock image (`ZeroDivisionError` at line 322),
`cv2.resize` refusing an empty output size, or the `ZeroDivisionError` of
`alpha = 255 / bg_mean` (line 334) when the blurred crop window is all
black. -/
def genBgFromImage (i : BgInput) (bgMean : ℕ) : Option (ℕ × ℕ) :=
  if ¬ i.height < i.width then none else
  if i.bgW = 0 ∨ i.bgH = 0 then none else
  if (bgResizedW i).toNat = 0 ∨ (bgResizedH i).toNat = 0 then none else
  if bgMean = 0 then none else
  some (sliceLen (bgResizedH i).toNat (i.yOff) ((i.yOff : ℤ) + i.height),
        sliceLen (bgResizedW i).toNat (i.xOff) ((i.xOff : ℤ) + i.width))

theorem width_le_bgResizedW (i : BgInput) (hbw : 0 < i.bgW) :
    (i.width : ℤ) ≤ bgResizedW i := by
  have h2 : (0 : ℚ) < (i.bgW : ℚ) := by exact_mod_cast hbw
  refine roundHE_ge (le_trans ?_
    (mul_le_mul_of_nonneg_left (le_max_left _ _) (le_of_lt h2)))
  rw [mul_div_cancel₀ _ (ne_of_gt h2)]
  push_cast
  exact le_refl _

theorem height_le_bgResizedH (i : BgInput) (hbh : 0 < i.bgH) :
    (i.height : ℤ) ≤ bgResizedH i := by
  have h2 : (0 : ℚ) < (i.bgH : ℚ) := by exact_mod_cast hbh
  refine roundHE_ge (le_trans ?_
    (mul_le_mul_of_nonneg_left (le_max_right _ _) (le_of_lt h2)))
  rw [mul_div_cancel₀ _ (ne_of_gt h2)]
  push_cast
  exact le_refl _

/-- C4 (amended): for every requested size with `width > height`,
stock-image background synthesis returns a raster of exactly the requested
`(width, height)` (shape `(height, width)` in row-major order) whenever
the blurred crop window's mean intensity `bg_mean` is positive, for every
nonempty stock image and every in-range offset draw; a zero mean (an
all-black window) makes `alpha = 255 / bg_mean` raise instead; and for
`width ≤ height` the `assert` fires and the call raises instead of
transposing or correcting. -/
theorem c4_bg_exact_size_or_assert (i : BgInput) (bgMean : ℕ)
    (hbw : 0 < i.bgW) (hbh : 0 < i.bgH) (hh : 0 < i.height)
    (hm : 0 < bgMean) (hd : validBgDraws i) :
    (i.height < i.width → genBgFromImage i bgMean = some (i.height, i.width)) ∧
    (i.width ≤ i.height → genBgFromImage i bgMean = none) := by
  constructor
  · intro hwh
    have hrw : (i.width : ℤ) ≤ bgResizedW i := width_le_bgResizedW i hbw
    have hrh : (i.height : ℤ) ≤ bgResizedH i := height_le_bgResizedH i hbh
    have hx : (i.xOff : ℤ) + i.width ≤ (bgResizedW i).toNat := by
      have := hd.1
      rw [maxOffset] at this
      split_ifs at this <;> omega
    have hy : (i.yOff : ℤ) + i.height ≤ (bgResizedH i).toNat := by
      have := hd.2
      rw [maxOffset] at this
      split_ifs at this <;> omega
    rw [genBgFromImage, if_neg (by omega), if_neg (by omega),
      if_neg (by omega), if_neg (by omega),
      sliceLen_of_bounds (by omega) hy (by omega),
      sliceLen_of_bounds (by omega) hx (by omega)]
    simp
  · intro hwh
    rw [genBgFromImage, if_pos (by omega)]

/-- Input for the C4 counterexample and witness: request 256×32 from a
100×100 stock image with zero offsets; `scale = max(256/100, 32/100) =
64/25` and the resized image is exactly 256×256. -/
def c4w : BgInput := ⟨256, 32, 100, 100, 0, 0⟩

/-- C4 counterexample: an all-black 100×100 stock background and the valid
landscape request 256×32. Resizing, cropping and Gaussian blur preserve
blackness, so `bg_mean = int(np.mean(out)) = 0` at line 332 and
`alpha = 255 / bg_mean` (line 334) raises `ZeroDivisionError`: under
`width > height` the call raises instead of returning an exact-size
raster, refuting the claim as stated. -/
theorem c4_counterexample :
    c4w.height < c4w.width ∧ 0 < c4w.bgW ∧ 0 < c4w.bgH ∧
    validBgDraws c4w ∧ genBgFromImage c4w 0 = none := by
  refine ⟨by norm_num [c4w], by norm_num [c4w], by norm_num [c4w],
    ⟨Nat.zero_le _, Nat.zero_le _⟩, ?_⟩
  norm_num [genBgFromImage, c4w, bgResizedW, bgResizedH, bgScale,
    roundHE, max_def]

/-- C4 witness: at `c4w` with a mid-gray window mean of 128 the content
and draw hypotheses hold and the synthesized background is exactly 32
rows by 256 columns; flipping the request to 32×256 makes the call
raise. -/
theorem c4_witness :
    (0 < c4w.bgW ∧ 0 < c4w.bgH ∧ 0 < c4w.height ∧ 0 < 128 ∧
     c4w.height < c4w.width) ∧
    genBgFromImage c4w 128 = some (32, 256) ∧
    genBgFromImage ⟨32, 256, 100, 100, 0, 0⟩ 128 = none := by
  refine ⟨by norm_num [c4w], ?_, ?_⟩
  · have h := (c4_bg_exact_size_or_assert c4w 128 (by norm_num [c4w])
      (by norm_num [c4w]) (by norm_num [c4w]) (by norm_num) ?_).1
      (by norm_num [c4w])
    · rw [h]
      norm_num [c4w]
    · constructor
      · norm_num [c4w, maxOffset, bgResizedW, bgScale, roundHE, max_def]
      · norm_num [c4w, maxOffset, bgResizedH, bgScale, roundHE, max_def]
  · exact (c4_bg_exact_size_or_assert ⟨32, 256, 100, 100, 0, 0⟩ 128 (by norm_num)
      (by norm_num) (by norm_num) (by norm_num)
      ⟨by norm_num [maxOffset, bgResizedW, bgScale, roundHE, max_def],
       by norm_num [maxOffset, bgResizedH, bgScale, roundHE, max_def]⟩).2
      (by norm_num)

/-- Input refuting C5 as stated: a 100×100 stock image and a valid
landscape request 8×4; `scale = max(8/100, 4/100) = 2/25 < 1`, a
downscale. -/
def c5ex : BgInput := ⟨8, 4, 100, 100, 0, 0⟩

/-- C5 counterexample: on a valid target (`width > height`) and a nonempty
stock image, the resize factor of `gen_bg_from_image` is strictly less
than 1 — the claim that the stock background is never downscaled is
false. -/
theorem c5_counterexample :
    c5ex.height < c5ex.width ∧ 0 < c5ex.bgW ∧ 0 < c5ex.bgH ∧
    bgScale c5ex < 1 := by
  refine ⟨by norm_num [c5ex], by norm_num [c5ex], by norm_num [c5ex], ?_⟩
  norm_num [bgScale, c5ex, max_def]

/-- C5 (amended): the resize factor is `max(width/bgW, height/bgH)`, which
guarantees that both resized dimensions are at least the requested target;
but it is a true upscale (factor ≥ 1) exactly when the stock image is no
larger than the target on at least one axis, and is a downscale otherwise. -/
theorem c5_resized_covers_target (i : BgInput)
    (hbw : 0 < i.bgW) (hbh : 0 < i.bgH) :
    ((i.width : ℤ) ≤ bgResizedW i ∧ (i.height : ℤ) ≤ bgResizedH i) ∧
    (1 ≤ bgScale i ↔ (i.bgW ≤ i.width ∨ i.bgH ≤ i.height)) := by
  have h2 : (0 : ℚ) < (i.bgW : ℚ) := by exact_mod_cast hbw
  have h3 : (0 : ℚ) < (i.bgH : ℚ) := by exact_mod_cast hbh
  refine ⟨⟨width_le_bgResizedW i hbw, height_le_bgResizedH i hbh⟩, ?_⟩
  rw [bgScale, le_max_iff, one_le_div h2, one_le_div h3]
  constructor
  · rintro (h | h)
    · exact Or.inl (by exact_mod_cast h)
    · exact Or.inr (by exact_mod_cast h)
  · rintro (h | h)
    · exact Or.inl (by exact_mod_cast h)
    · exact Or.inr (by exact_mod_cast h)

/-- C5 witness: applying the amended theorem at a 2×2 stock image and an
8×4 target, where the factor is an upscale. -/
theorem c5_witness :
    ((8 : ℤ) ≤ bgResizedW ⟨8, 4, 2, 2, 0, 0⟩ ∧
     (4 : ℤ) ≤ bgResizedH ⟨8, 4, 2, 2, 0, 0⟩) ∧
    (1 ≤ bgScale ⟨8, 4, 2, 2, 0, 0⟩ ↔ ((2 : ℕ) ≤ 8 ∨ (2 : ℕ) ≤ 4)) :=
  c5_resized_covers_target ⟨8, 4, 2, 2, 0, 0⟩ (by norm_num) (by norm_num)

/-- The set of values
`dst_height = random.randint(self.out_height // 4 * 3, self.out_height)`
(line 126) can take: `random.randint` is inclusive on both ends and
`//` is floor division. -/
def dstHeightChoices (outH : ℕ) : Finset ℕ := Finset.Icc (outH / 4 * 3) outH

/-- C6 counterexample: for `out_height = 30` the draw `21` is possible
(`30 // 4 * 3 = 21`) yet `21 < 0.75 × 30 = 22.5`, so `dst_height` is not
always at least 75% of the output height. -/
theorem c6_counterexample :
    0 < 30 ∧ 21 ∈ dstHeightChoices 30 ∧ ¬ ((3 / 4 : ℚ) * 30 ≤ (21 : ℚ)) := by
  refine ⟨by norm_num, ?_, by norm_num⟩
  rw [dstHeightChoices, Finset.mem_Icc]
  norm_num

/-- C6 (amended): `dst_height` always lies in
`[out_height // 4 * 3, out_height]` (floor division); this lower bound
coincides with the 75% policy exactly when `out_height` is divisible by 4
(as the default 32 is), and is below `0.75 × out_height` otherwise. -/
theorem c6_dst_height_range (outH d : ℕ) (h : d ∈ dstHeightChoices outH) :
    outH / 4 * 3 ≤ d ∧ d ≤ outH ∧
    (outH % 4 = 0 → (3 / 4 : ℚ) * outH ≤ (d : ℚ)) := by
  rw [dstHeightChoices, Finset.mem_Icc] at h
  refine ⟨h.1, h.2, fun h4 => ?_⟩
  obtain ⟨k, hk⟩ : ∃ k, outH = 4 * k := ⟨outH / 4, by omega⟩
  have hd : 3 * k ≤ d := by omega
  rw [hk]
  push_cast
  calc (3 / 4 : ℚ) * (4 * k) = 3 * k := by ring
    _ ≤ (d : ℚ) := by exact_mod_cast hd

/-- C6 witness: at the default `out_height = 32` the draw `24` is in range
and satisfies the amended bounds, including the 75% policy. -/
theorem c6_witness :
    24 ∈ dstHeightChoices 32 ∧
    (32 / 4 * 3 ≤ 24 ∧ 24 ≤ 32 ∧
     (32 % 4 = 0 → (3 / 4 : ℚ) * (32 : ℕ) ≤ ((24 : ℕ) : ℚ))) :=
  ⟨by rw [dstHeightChoices, Finset.mem_Icc]; norm_num,
   c6_dst_height_range 32 24 (by rw [dstHeightChoices, Finset.mem_Icc]; norm_num)⟩

/-- Word height in `draw_text_with_random_space` (lines 259-270): running
maximum of the per-character heights `size[1]`, starting from 0. Character
measurements are the list of `font.getsize(c)` pairs `(width, height)`. -/
def wordHeight (sizes : List (ℕ × ℕ)) : ℕ :=
  sizes.foldl (fun h s => max h s.2) 0

/-- Sum of the per-character widths accumulated by the same loop
(line 267). -/
def charsWidthSum (sizes : List (ℕ × ℕ)) : ℕ :=
  sizes.foldl (fun w s => w + s.1) 0

/-- Line 278:
`char_space_width = int(height * np.random.uniform(min, max))`, with the
uniform draw `u` explicit. -/
def charSpaceWidth (sizes : List (ℕ × ℕ)) (u : ℚ) : ℤ :=
  pyInt ((wordHeight sizes : ℚ) * u)

/-- Line 280: `width += (char_space_width * (len(word) - 1))`. -/
def randomSpaceWidth (sizes : List (ℕ × ℕ)) (u : ℚ) : ℤ :=
  (charsWidthSum sizes : ℤ) + charSpaceWidth sizes u * ((sizes.length : ℤ) - 1)

theorem foldl_add_fst (l : List (ℕ × ℕ)) (a : ℕ) :
    l.foldl (fun w s => w + s.1) a = a + (l.map Prod.fst).sum := by
  induction l generalizing a with
  | nil => simp
  | cons x xs ih =>
    simp only [List.foldl_cons, List.map_cons, List.sum_cons, ih]
    omega

theorem le_foldl_max_init (l : List (ℕ × ℕ)) (a : ℕ) :
    a ≤ l.foldl (fun h s => max h s.2) a := by
  induction l generalizing a with
  | nil => simp
  | cons x xs ih => exact le_trans (le_max_left a x.2) (ih (max a x.2))

theorem mem_le_foldl_max (l : List (ℕ × ℕ)) (a : ℕ) :
    ∀ s ∈ l, s.2 ≤ l.foldl (fun h s => max h s.2) a := by
  induction l generalizing a with
  | nil => intro s hs; simp at hs
  | cons x xs ih =>
    intro s hs
    rcases List.mem_cons.mp hs with rfl | hs
    · exact le_trans (le_max_right a s.2) (le_foldl_max_init xs (max a s.2))
    · exact ih (max a x.2) s hs

/-- C7 counterexample: two 10×10 characters and the draw `u = 0.37` (a
value inside e.g. a configured `[0, 1]` fraction range). The code computes
`int(10 * 0.37) = 3`, while `round(10 * 0.37) = 4`: the gap is truncated,
not rounded. -/
theorem c7_counterexample :
    (0 : ℚ) ≤ 37 / 100 ∧ (37 / 100 : ℚ) ≤ 1 ∧
    charSpaceWidth [(10, 10), (10, 10)] (37 / 100) = 3 ∧
    roundHE ((wordHeight [(10, 10), (10, 10)] : ℚ) * (37 / 100)) = 4 := by
  refine ⟨by norm_num, by norm_num, ?_, ?_⟩
  · norm_num [charSpaceWidth, wordHeight, pyInt, max_def]
  · norm_num [wordHeight, roundHE, max_def]

/-- C7 (amended): for a nonnegative spacing draw `u`, the inter-character
gap is `⌊height × u⌋` — `int()` truncation, not rounding — where `height`
is an upper bound of (and, for a nonempty word, attained by) the
per-character heights; the total width is the sum of the character widths
plus `(len(word) - 1)` gaps. -/
theorem c7_random_space_geometry (sizes : List (ℕ × ℕ)) (u : ℚ)
    (hu : 0 ≤ u) :
    charSpaceWidth sizes u = ⌊(wordHeight sizes : ℚ) * u⌋ ∧
    (∀ s ∈ sizes, s.2 ≤ wordHeight sizes) ∧
    (charsWidthSum sizes : ℤ) = ((sizes.map Prod.fst).sum : ℤ) ∧
    randomSpaceWidth sizes u =
      ((sizes.map Prod.fst).sum : ℤ) +
        ⌊(wordHeight sizes : ℚ) * u⌋ * ((sizes.length : ℤ) - 1) := by
  have hg : charSpaceWidth sizes u = ⌊(wordHeight sizes : ℚ) * u⌋ := by
    rw [charSpaceWidth, pyInt, if_pos (mul_nonneg (Nat.cast_nonneg _) hu)]
  have hs : (charsWidthSum sizes : ℤ) = ((sizes.map Prod.fst).sum : ℤ) := by
    rw [charsWidthSum, foldl_add_fst]
    push_cast
    ring
  refine ⟨hg, mem_le_foldl_max sizes 0, hs, ?_⟩
  rw [randomSpaceWidth, hg, hs]

/-- C7 witness: one 10×12 character and draw `u = 1/2`; the gap is
`⌊12 × 1/2⌋ = 6` and, the word having a single character, no gap enters
the width. -/
theorem c7_witness :
    (0 : ℚ) ≤ 1 / 2 ∧
    (charSpaceWidth [(10, 12)] (1 / 2) = ⌊((wordHeight [(10, 12)] : ℕ) : ℚ) * (1 / 2)⌋ ∧
     (∀ s ∈ [(10, 12)], s.2 ≤ wordHeight [(10, 12)]) ∧
     (charsWidthSum [(10, 12)] : ℤ) = (([(10, 12)].map Prod.fst).sum : ℤ) ∧
     randomSpaceWidth [(10, 12)] (1 / 2) =
       (([(10, 12)].map Prod.fst).sum : ℤ) +
         ⌊((wordHeight [(10, 12)] : ℕ) : ℚ) * (1 / 2)⌋ * (([(10, 12)].length : ℤ) - 1)) :=
  ⟨by norm_num, c7_random_space_geometry [(10, 12)] (1 / 2) (by norm_num)⟩

/-- The values `offset = np.random.randint(-10, 10)` can take in
`reverse_img` (line 448): NumPy's `randint` excludes its upper bound, so
the draws are the integers of `[-10, 9]`. -/
def reverseOffsets : Finset ℤ := Finset.Icc (-10) 9

/-- `Renderer.reverse_img` (line 449) per pixel:
`255 + offset - img`. -/
def reverseImg (offset img : ℤ) : ℤ := 255 + offset - img

/-- C8 counterexample: the claim includes `10` among the possible offset
draws, but `np.random.randint(-10, 10)` has an exclusive upper bound and
can never return `10`. -/
theorem c8_counterexample :
    (10 : ℤ) ∈ Finset.Icc (-10 : ℤ) 10 ∧ (10 : ℤ) ∉ reverseOffsets := by
  rw [reverseOffsets]
  constructor
  · rw [Finset.mem_Icc]; norm_num
  · rw [Finset.mem_Icc]; norm_num

/-- C8 (amended): color inversion computes `out = 255 + offset - img`
where `offset` is a uniform integer draw from the inclusive range
`[-10, 9]`: every value of that range, and no other, is a possible draw —
in particular `10` is not. -/
theorem c8_reverse_formula (offset img : ℤ) (_h : offset ∈ reverseOffsets) :
    reverseImg offset img = 255 + offset - img ∧
    (∀ o : ℤ, o ∈ reverseOffsets ↔ (-10 ≤ o ∧ o ≤ 9)) :=
  ⟨rfl, fun o => by rw [reverseOffsets, Finset.mem_Icc]⟩

/-- C8 witness: the draw `-10` is possible and inverts the pixel value 0
to 245. -/
theorem c8_witness :
    (-10 : ℤ) ∈ reverseOffsets ∧
    (reverseImg (-10) 0 = 255 + (-10) - 0 ∧
     (∀ o : ℤ, o ∈ reverseOffsets ↔ (-10 ≤ o ∧ o ≤ 9))) :=
  ⟨by rw [reverseOffsets, Finset.mem_Icc]; norm_num,
   c8_reverse_formula (-10) 0 (by rw [reverseOffsets, Finset.mem_Icc]; norm_num)⟩

/-- `np.clip(x, 0., 255.)` per pixel. -/
def pyClip (x : ℤ) : ℤ := max 0 (min 255 x)

/-- The post-effects tail of `Renderer.gen_img` (lines 66-84) per pixel,
with the four `apply(...)` Bernoulli draws and the inversion offset
explicit, and the externally defined noiser, blur and prydown transforms
abstracted as functions. The `blured` flag of lines 70-75 is folded into
the conditional: pseudo-downsampling is reachable only when the blur
toggle did not fire. -/
def genImgPostEffects (noiseF blurF prydownF : ℤ → ℤ)
    (noiseOn blurOn prydownOn reverseOn : Bool) (offset img : ℤ) : ℤ :=
  let i1 := if noiseOn then noiseF (pyClip img) else img
  let i2 := if blurOn then blurF i1 else i1
  let i3 := if blurOn then i2 else if prydownOn then prydownF i2 else i2
  let i4 := pyClip i3
  if reverseOn then reverseImg offset i4 else i4

/-- C9: when the blur toggle fires, the pseudo-downsample (`prydown`)
stage is skipped even if its own toggle is on: the output with both
toggles on equals the blur-only output, for every noiser/blur/prydown
transform, every other toggle and every pixel value. -/
theorem c9_blur_excludes_prydown (noiseF blurF prydownF : ℤ → ℤ)
    (noiseOn prydownOn reverseOn : Bool) (offset img : ℤ) :
    genImgPostEffects noiseF blurF prydownF noiseOn true prydownOn reverseOn offset img =
    genImgPostEffects noiseF blurF prydownF noiseOn true false reverseOn offset img := rfl

/-- Python `word[:k]` on a character list: for `k < 0` the bound counts
from the end of the word (so `word[:-1]` drops exactly the last
character); the result is never longer than the word. -/
def pySliceTake (s : List Char) (k : ℤ) : List Char :=
  if 0 ≤ k then s.take k.toNat else s.take (s.length - (-k).toNat)

/-- Line 26: `self.max_chars = math.floor(width / 4) - 1`. -/
def maxCharsOf (width : ℕ) : ℤ := ⌊(width : ℚ) / 4⌋ - 1

/-- Lines 349-350 of `pick_font`: when `clip_max_chars` is set and the
corpus word is longer than `max_chars`, the word used for rendering and
returned as the label is `word[:self.max_chars]`. -/
def clipWord (clipMax : Bool) (width : ℕ) (word : List Char) : List Char :=
  if clipMax ∧ maxCharsOf width < (word.length : ℤ) then
    pySliceTake word (maxCharsOf width)
  else word

theorem maxCharsOf_eq (width : ℕ) : maxCharsOf width = ((width / 4 : ℕ) : ℤ) - 1 := by
  have h1 : width / 4 * 4 ≤ width := Nat.div_mul_le_self width 4
  have h2 : width < (width / 4 + 1) * 4 := by omega
  rw [maxCharsOf]
  congr 1
  rw [Int.floor_eq_iff]
  constructor
  · rw [le_div_iff₀ (by norm_num : (0 : ℚ) < 4)]
    exact_mod_cast h1
  · rw [div_lt_iff₀ (by norm_num : (0 : ℚ) < 4)]
    push_cast
    exact_mod_cast h2

/-- C10: with `clip_max_chars` active, the word used for rendering and
returned as the label has at most `floor(out_width / 4) - 1` characters, a
limit computed from the output width; stated for `width ≥ 4`, where the
limit is a meaningful (nonnegative) count. -/
theorem c10_clip_max_chars (width : ℕ) (word : List Char) (hw : 4 ≤ width) :
    maxCharsOf width = ((width / 4 : ℕ) : ℤ) - 1 ∧
    ((clipWord true width word).length : ℤ) ≤ maxCharsOf width := by
  refine ⟨maxCharsOf_eq width, ?_⟩
  have hmc : 0 ≤ maxCharsOf width := by
    rw [maxCharsOf_eq]
    have : 1 ≤ width / 4 := by omega
    omega
  rw [clipWord]
  split_ifs with h
  · rw [pySliceTake, if_pos hmc]
    have := List.length_take ((maxCharsOf width).toNat) word
    omega
  · have h2 : ¬ maxCharsOf width < (word.length : ℤ) := fun hc => h ⟨rfl, hc⟩
    omega

/-- C10 witness: at the default `out_width = 256` a 70-character word is
clipped to `max_chars = 63` characters. -/
theorem c10_witness :
    4 ≤ 256 ∧
    (maxCharsOf 256 = ((256 / 4 : ℕ) : ℤ) - 1 ∧
     ((clipWord true 256 (List.replicate 70 'a')).length : ℤ) ≤ maxCharsOf 256) :=
  ⟨by norm_num, c10_clip_max_chars 256 (List.replicate 70 'a') (by norm_num)⟩

/-- Modelled from the spec: the Geometry Service interface of spec
sections 2, 4.4 and 6, implemented by `libs.math_utils.PerspectiveTransform`,
whose source is outside the unit under study. `buildProjection` builds the
projection matrix from the three rotation angles, the scale and the field
of view; `warpImage` warps a raster with a given matrix (the flag selects
the gpu path); `applyMat` maps one 2D point by a matrix; `corners` reads a
raster's corner points. Raster and matrix representations are opaque type
parameters. -/
structure GeometryService (Raster Mat : Type) where
  buildProjection : ℚ → ℚ → ℚ → ℚ → ℚ → Mat
  warpImage : Mat → Bool → Raster → Raster
  applyMat : Mat → ℚ × ℚ → ℚ × ℚ
  corners : Raster → List (ℚ × ℚ)

/-- Modelled from the spec: `PerspectiveTransform.transform_image` returns
the warped raster, the 3×3 projection matrix `M33` it used, and the image
corner quadrilateral mapped by that same matrix (spec section 6:
`warp_image(raster, matrix, use_accelerated_path) → (raster, corner_quad)`,
with the matrix built once from the transformer's angles). -/
def transformImage {Raster Mat : Type} (g : GeometryService Raster Mat)
    (x y z scale fovy : ℚ) (img : Raster) (gpu : Bool) :
    Raster × Mat × List (ℚ × ℚ) :=
  let M33 := g.buildProjection x y z scale fovy
  (g.warpImage M33 gpu img, M33, (g.corners img).map (g.applyMat M33))

/-- Modelled from the spec: `PerspectiveTransform.transform_pnts` maps a
point quadrilateral by a given matrix (spec section 6:
`warp_points(point_quad, matrix) → point_quad`), preserving point order. -/
def transformPnts {Raster Mat : Type} (g : GeometryService Raster Mat)
    (pnts : List (ℚ × ℚ)) (M33 : Mat) : List (ℚ × ℚ) :=
  pnts.map (g.applyMat M33)

/-- `Renderer.apply_perspective_transform` (lines 383-408): draws the three
angles (here explicit arguments `x`, `y`, `z`), builds one transformer with
`scale = 1.0`, `fovy = 50`, warps the raster through `transform_image`, and
maps the text quadrilateral through `transform_pnts` with the matrix `M33`
that `transform_image` returned. -/
def applyPerspectiveTransform {Raster Mat : Type} (g : GeometryService Raster Mat)
    (img : Raster) (textBoxPnts : List (ℚ × ℚ)) (x y z : ℚ) (gpu : Bool) :
    Raster × List (ℚ × ℚ) × List (ℚ × ℚ) :=
  let r := transformImage g x y z 1 50 img gpu
  (r.1, r.2.2, transformPnts g textBoxPnts r.2.1)

/-- C1: in every call to `apply_perspective_transform` a single projection
matrix — the one built from the drawn angles with `scale = 1`,
`fovy = 50` — produces all three outputs: the warped raster, the warped
image-corner quadrilateral and the warped text quadrilateral. -/
theorem c1_single_projection_matrix {Raster Mat : Type}
    (g : GeometryService Raster Mat) (img : Raster)
    (textBoxPnts : List (ℚ × ℚ)) (x y z : ℚ) (gpu : Bool) :
    ∃ M33 : Mat, M33 = g.buildProjection x y z 1 50 ∧
      applyPerspectiveTransform g img textBoxPnts x y z gpu =
        (g.warpImage M33 gpu img,
         (g.corners img).map (g.applyMat M33),
         textBoxPnts.map (g.applyMat M33)) :=
  ⟨g.buildProjection x y z 1 50, rfl, rfl⟩

end TextRenderer
